import Mathlib

/-!
Verification development for the RAG ingestion-and-retrieval service
(`src/task4/main.js`): chunking, batched embedding, chunk identities,
the Chroma write step, and the `/prompt`, `/upload`, `/rechunk` handlers.
Strings are embedded as lists of characters (`Str`); the external
collaborators (embedding provider, vector index, generative model) are
passed in as function parameters, following the interface contracts the
specification gives for them.
-/

namespace Rag

/-- Strings of the JS program, embedded as lists of characters. -/
abbrev Str := List Char

/-- Convert a Lean string literal to the embedded string type. -/
def str (s : String) : Str := s.toList

/-- JS whitespace characters relevant here (the regex class `\s`,
restricted to the ASCII range exercised by the program). -/
def isWsChar (c : Char) : Bool :=
  c = ' ' || c = '\t' || c = '\n' || c = '\r' || c = '\x0b' || c = '\x0c'

/-- `dropWhile` never lengthens a list. -/
theorem length_dropWhile_le (p : Char → Bool) (l : Str) :
    (l.dropWhile p).length ≤ l.length :=
  (List.dropWhile_sublist p).length_le

/-- Worker for `replace(/\s+/g, " ")`: the flag records whether the
previous character was whitespace (inside a run only the first character
emits the single replacement space). -/
def normAux (inRun : Bool) : Str → Str
  | [] => []
  | c :: rest =>
    if isWsChar c then
      if inRun then normAux true rest else ' ' :: normAux true rest
    else c :: normAux false rest

/-- `text.replace(/\s+/g, " ")`: every maximal whitespace run becomes one
space. -/
def normalizeWs (l : Str) : Str := normAux false l

/-- Sentence-ending punctuation of the split regex `(?<=[.!?])\s+`. -/
def isSentEnd (c : Char) : Bool := c = '.' || c = '!' || c = '?'

/-- Whether the character just before the current position (the head of the
reversed accumulator) ends a sentence, the lookbehind `(?<=[.!?])`. -/
def lastIsSentEnd : Str → Bool
  | p :: _ => isSentEnd p
  | [] => false

mutual

/-- Splitting loop for `split(/(?<=[.!?])\s+/)`: `acc` holds the current
segment reversed; a whitespace run directly after `.`, `!` or `?` is a
delimiter, consumed by `splitSkip`. -/
def splitSent (acc : Str) : Str → List Str
  | [] => [acc.reverse]
  | c :: rest =>
    if isWsChar c && lastIsSentEnd acc then
      acc.reverse :: splitSkip rest
    else
      splitSent (c :: acc) rest

/-- Consume the rest of a delimiter whitespace run, then start the next
segment (a delimiter ending the input leaves a trailing empty segment,
as the JS `split` does). -/
def splitSkip : Str → List Str
  | [] => [[]]
  | c :: rest =>
    if isWsChar c then splitSkip rest
    else splitSent [c] rest

end

/-- The sentence list `chunkText` works on:
`text.replace(/\s+/g, " ").split(/(?<=[.!?])\s+/)`. -/
def sentencesOf (text : Str) : List Str := splitSent [] (normalizeWs text)

/-- JS `String.prototype.trim` on the characters occurring here. -/
def trimStr (l : Str) : Str :=
  ((l.dropWhile isWsChar).reverse.dropWhile isWsChar).reverse

/-- `s.slice(-k)` for `k > 0`: the last `min k n` characters. -/
def takeLast (k : Nat) (l : Str) : Str := l.drop (l.length - k)

/-- One step of the sentence-accumulation loop of `chunkText`; the state is
the pair (chunks pushed so far, current buffer). -/
def chunkStep (size overlap : Nat) (st : List Str × Str) (s : Str) : List Str × Str :=
  let chunks := st.1
  let cur := st.2
  if (cur ++ s).length > size then
    let chunks' := if trimStr cur ≠ [] then chunks ++ [trimStr cur] else chunks
    let cur' :=
      if overlap > 0 ∧ chunks'.length > 0 then trimStr (takeLast overlap cur)
      else []
    (chunks', cur' ++ s ++ [' '])
  else
    (chunks, cur ++ s ++ [' '])

/-- `chunkText(text, size, overlap)` of `src/task4/main.js`. -/
def chunkText (text : Str) (size : Nat) (overlap : Nat := 0) : List Str :=
  let sentences := sentencesOf text
  let fin := sentences.foldl (chunkStep size overlap) ([], [])
  if trimStr fin.2 ≠ [] then fin.1 ++ [trimStr fin.2] else fin.1

/-- Length of the longest sentence the splitter produces for `text`. -/
def maxSentLen (text : Str) : Nat :=
  ((sentencesOf text).map List.length).foldr max 0

/-- Digit-by-digit decimal rendering; the first argument is structural
fuel (any fuel above the digit count gives the full rendering). -/
def natReprAux : Nat → Nat → Str
  | 0, _ => []
  | fuel + 1, n =>
    if n < 10 then [Nat.digitChar n]
    else natReprAux fuel (n / 10) ++ [Nat.digitChar (n % 10)]

/-- Decimal rendering of a natural number, as the JS template literal
`${chunk.chunkIndex}` renders a non-negative integer. -/
def natRepr (n : Nat) : Str := natReprAux (n + 1) n

/-- A document as produced by text extraction: filename, category, content. -/
structure Doc where
  filename : Str
  category : Str
  content : Str
deriving DecidableEq, Repr

/-- A chunk record `{filename, category, chunkIndex, content}`. -/
structure Chunk where
  filename : Str
  category : Str
  chunkIndex : Nat
  content : Str
deriving DecidableEq, Repr

/-- `chunkAllDocuments(documents, size, overlap)`: chunk every document and
tag each chunk with its 0-based index. -/
def chunkAllDocuments (documents : List Doc) (size overlap : Nat) : List Chunk :=
  (documents.map (fun d =>
    (chunkText d.content size overlap).enum.map (fun p =>
      Chunk.mk d.filename d.category p.1 p.2))).flatten

/-- The chunk list `/upload` prepares: `chunkText(text, CHUNK_LENGTH)` with
the overlap argument omitted (so overlap 0), then
`chunks.map((c, i) => ({filename, category, chunkIndex: i, content: c}))`. -/
def uploadPrepare (size : Nat) (fname cat text : Str) : List Chunk :=
  (chunkText text size 0).enum.map (fun p => Chunk.mk fname cat p.1 p.2)

/-- The string hashed by `makeChunkId`:
`` `${chunk.filename}|${chunk.category}|${chunk.chunkIndex}` ``. -/
def rawId (f c : Str) (i : Nat) : Str :=
  f ++ ('|' :: c) ++ ('|' :: natRepr i)

/-- `makeChunkId`, with the external SHA-1 hex digest abstracted as a
function `h` on strings (the digest of `raw` is `h raw`). -/
def makeChunkId (h : Str → Str) (chunk : Chunk) : Str :=
  h (rawId chunk.filename chunk.category chunk.chunkIndex)

/-- Embedding vectors; their numeric entries are opaque to the core. -/
abbrev Vec := List Int

/-- A chunk together with its embedding (`{...chunk, embedding: vector}`). -/
structure EmbChunk where
  filename : Str
  category : Str
  chunkIndex : Nat
  content : Str
  embedding : Vec
deriving DecidableEq, Repr

/-- `EMBED_BATCH_SIZE`. -/
def EMBED_BATCH_SIZE : Nat := 16

/-- One batch of `embedAllChunks`: embed every chunk of the batch
(`batch.map(c => embedChunk(c.content))`) and keep, in order, the chunks
whose embedding is not null. `embed` is the external `embedChunk`, `none`
standing for its `null` failure result. -/
def processBatch (embed : Str → Option Vec) (batch : List Chunk) : List EmbChunk :=
  (((batch.map (fun c => embed c.content)).zip batch).filterMap (fun p =>
    p.1.map (fun v => EmbChunk.mk p.2.filename p.2.category p.2.chunkIndex p.2.content v)))

/-- Batch loop of `embedAllChunks`; the first argument is structural fuel
(one unit per batch, so any fuel at or above the list length suffices). -/
def embedAllAux (embed : Str → Option Vec) : Nat → List Chunk → List EmbChunk
  | 0, _ => []
  | _ + 1, [] => []
  | fuel + 1, c :: rest =>
    processBatch embed ((c :: rest).take EMBED_BATCH_SIZE) ++
      embedAllAux embed fuel ((c :: rest).drop EMBED_BATCH_SIZE)

/-- `embedAllChunks(chunks)`: process the chunk list in batches of
`EMBED_BATCH_SIZE`, dropping chunks whose embedding failed. -/
def embedAllChunks (embed : Str → Option Vec) (chunks : List Chunk) : List EmbChunk :=
  embedAllAux embed chunks.length chunks

/-- Metadata stored with a chunk in the vector index. -/
structure StoredMeta where
  filename : Str
  category : Str
  chunkIndex : Nat
  model : Str
deriving DecidableEq, Repr

/-- A stored record: embedding, document text, metadata. -/
structure StoredRec where
  embedding : Vec
  document : Str
  metadata : StoredMeta
deriving DecidableEq, Repr

instance : Inhabited StoredMeta := ⟨⟨[], [], 0, []⟩⟩

instance : Inhabited StoredRec := ⟨⟨[], [], default⟩⟩

/-- The vector index, keyed by chunk identity.
Modelled from the spec: the index itself is the external `VectorIndex`
collaborator, which `src/task4/main.js` only reaches through the Chroma
client; per the specification its write is an upsert by id (insert a new
id, overwrite an existing one). -/
abbrev Index := List (Str × StoredRec)

/-- The identities present in an index. -/
def keys (idx : Index) : List Str := idx.map Prod.fst

/-- Upsert one record: overwrite every entry carrying the id, or append. -/
def upsert (idx : Index) (id : Str) (r : StoredRec) : Index :=
  if idx.any (fun p => p.1 = id) then
    idx.map (fun p => if p.1 = id then (id, r) else p)
  else idx ++ [(id, r)]

/-- Upsert a batch of rows, in order. -/
def upsertAll (idx : Index) (rows : List (Str × StoredRec)) : Index :=
  rows.foldl (fun a p => upsert a p.1 p.2) idx

/-- Record lookup by identity. -/
def lookupIdx (idx : Index) (k : Str) : Option StoredRec :=
  (idx.find? (fun p => p.1 = k)).map Prod.snd

/-- The embedded chunks `saveToChroma` keeps: those with a non-empty
embedding (`if (!chunk.embedding || !chunk.embedding.length) continue`). -/
def chromaRows (ecs : List EmbChunk) : List EmbChunk :=
  ecs.filter (fun c => ¬ c.embedding.isEmpty)

/-- The `ids` array passed to `collection.add`. -/
def chromaIds (h : Str → Str) (ecs : List EmbChunk) : List Str :=
  (chromaRows ecs).map (fun c =>
    makeChunkId h (Chunk.mk c.filename c.category c.chunkIndex c.content))

/-- The `embeddings` array passed to `collection.add`. -/
def chromaEmbeddings (ecs : List EmbChunk) : List Vec :=
  (chromaRows ecs).map (fun c => c.embedding)

/-- The `documents` array passed to `collection.add`. -/
def chromaDocuments (ecs : List EmbChunk) : List Str :=
  (chromaRows ecs).map (fun c => c.content)

/-- The `metadatas` array passed to `collection.add`. -/
def chromaMetadatas (ecs : List EmbChunk) : List StoredMeta :=
  (chromaRows ecs).map (fun c =>
    StoredMeta.mk c.filename c.category c.chunkIndex (str ("all-MiniLM-L6-v2")))

/-- The rows `collection.add` receives, as (id, record) pairs. -/
def chromaBatch (h : Str → Str) (ecs : List EmbChunk) : List (Str × StoredRec) :=
  (chromaRows ecs).map (fun c =>
    (makeChunkId h (Chunk.mk c.filename c.category c.chunkIndex c.content),
     StoredRec.mk c.embedding c.content
       (StoredMeta.mk c.filename c.category c.chunkIndex (str ("all-MiniLM-L6-v2")))))

/-- `saveToChroma(embeddedChunks)` acting on an index state: an empty input
warns and returns without writing; a filtered batch that is empty or has
mismatched parallel arrays throws; otherwise the batch is written in one
call. -/
def saveToChroma (h : Str → Str) (idx : Index) (ecs : List EmbChunk) :
    Except Str Index :=
  if ecs.isEmpty then .ok idx
  else if (chromaIds h ecs).isEmpty ∨
      (chromaIds h ecs).length ≠ (chromaEmbeddings ecs).length ∨
      (chromaIds h ecs).length ≠ (chromaMetadatas ecs).length ∨
      (chromaIds h ecs).length ≠ (chromaDocuments ecs).length then
    .error (str ("Chroma data arrays mismatch or empty"))
  else .ok (upsertAll idx (chromaBatch h ecs))

/-- Metadata as it comes back from a vector-index query; fields may be
absent, and `metas[idx] || {}` may yield the empty object. -/
structure QMeta where
  filename : Option Str := none
  category : Option Str := none
  chunkIndex : Option Nat := none
deriving DecidableEq, Repr

/-- `x || "unknown"`: absent or empty strings fall back to `"unknown"`. -/
def strOrUnknown (x : Option Str) : Str :=
  match x with
  | some s => if s.isEmpty then str ("unknown") else s
  | none => str ("unknown")

/-- `meta.chunkIndex ?? "?"`: only a missing index renders as `?`. -/
def chunkIndexOrQ (x : Option Nat) : Str :=
  match x with
  | some n => natRepr n
  | none => str ("?")

/-- One labeled context block of the `/prompt` handler. -/
def contextBlock (doc : Str) (meta : QMeta) : Str :=
  str ("Source: ") ++ strOrUnknown meta.filename ++
  str ("\nCategory: ") ++ strOrUnknown meta.category ++
  str ("\nChunk: ") ++ chunkIndexOrQ meta.chunkIndex ++
  str ("\n\n") ++ doc ++
  str ("\n------------------------------------------------\n\n\n")

/-- The accumulated `contextText` before the empty-context check. -/
def contextBlocks (docs : List Str) (metas : List QMeta) : Str :=
  (docs.enum.map (fun p =>
    contextBlock p.2 ((metas.get? p.1).getD {}))).flatten

/-- The sentinel context used when retrieval matches nothing. -/
def sentinelCtx : Str := str ("No relevant documents found.")

/-- The mandated fallback answer sentence. -/
def fallbackAnswer : Str :=
  str ("The answer is not available in the provided documents.")

/-- The context actually handed to the generator: the sentinel replaces a
context that is empty after trimming. -/
def contextFinal (docs : List Str) (metas : List QMeta) : Str :=
  if (trimStr (contextBlocks docs metas)).isEmpty then sentinelCtx
  else contextBlocks docs metas

/-- The single generation request text of the `/prompt` handler. -/
def ragPrompt (question ctx : Str) : Str :=
  str ("You are a retrieval-augmented assistant.\nAnswer ONLY using the provided context.\nIf the answer is not present, reply exactly:\n\x22The answer is not available in the provided documents.\x22\n\nQuestion:\n") ++
  question ++ str ("\n\nContext:\n") ++ ctx

/-- The JSON response of `/prompt`, plus the trace of prompts that were
passed to the external generative model during the request. -/
structure PromptResp where
  status : Nat
  answer : Option Str := none
  sources : List QMeta := []
  error : Option Str := none
  details : Option Str := none
  genCalls : List Str := []
deriving DecidableEq, Repr

/-- `response?.candidates?.[0]?.content?.parts?.[0]?.text || fallback`:
a missing or empty text falls back to the fixed sentence. -/
def answerOf (r : Option Str) : Str :=
  match r with
  | some t => if t.isEmpty then fallbackAnswer else t
  | none => fallbackAnswer

/-- The `POST /prompt` handler. `embedQ` is the external `embedChunk`
(`none` for its `null` failure result), `queryIdx` the vector-index query
(`Except.error` for a thrown query), and `gen` the generative call
(`Except.error` for a thrown call, `Except.ok none` for a response with no
text); a throw anywhere lands in the catch block, which responds 500. -/
def promptHandler (embedQ : Str → Option Vec)
    (queryIdx : Vec → Except Str (List Str × List QMeta))
    (gen : Str → Except Str (Option Str)) (question : Str) : PromptResp :=
  if (trimStr question).isEmpty then
    { status := 400, error := some (str ("question is required")) }
  else
    match embedQ question with
    | none => { status := 500, error := some (str ("Failed to embed question")) }
    | some qe =>
      if qe.isEmpty then
        { status := 500, error := some (str ("Failed to embed question")) }
      else
        match queryIdx qe with
        | .error e =>
          { status := 500, error := some (str ("Prompt failed")), details := some e }
        | .ok (docs, metas) =>
          let prompt := ragPrompt question (contextFinal docs metas)
          match gen prompt with
          | .error e =>
            { status := 500, error := some (str ("Prompt failed")),
              details := some e, genCalls := [prompt] }
          | .ok r =>
            { status := 200, answer := some (answerOf r), sources := metas,
              genCalls := [prompt] }

/-- The JSON body of `POST /rechunk`; the chunk parameters stand for the
`parseInt` results of what the caller supplied (`none` for a missing field
or a `NaN` parse; negative parses are outside the range exercised here). -/
structure RechunkBody where
  chunkLength : Option Nat := none
  chunkOverlap : Option Nat := none
  specificFile : Option Str := none
  specificCategory : Option Str := none
deriving DecidableEq, Repr

/-- JS `a || b` on a parsed integer: `NaN` (`none`) and `0` are falsy. -/
def orFalsy (a : Option Nat) (b : Nat) : Nat :=
  match a with
  | some v => if v = 0 then b else v
  | none => b

/-- `parseInt(supplied) || parseInt(env) || fallback`, the chunk-parameter
resolution of the `/rechunk` handler (lines 511-512). -/
def resolveParam (supplied envVal : Option Nat) (fallback : Nat) : Nat :=
  orFalsy supplied (orFalsy envVal fallback)

/-- The JSON response of `/rechunk`. -/
structure RechunkResp where
  status : Nat
  message : Option Str := none
  error : Option Str := none
  details : Option Str := none
  documents : Option Nat := none
  chunks : Option Nat := none
  chunkLength : Option Nat := none
  chunkOverlap : Option Nat := none
deriving DecidableEq, Repr

/-- The `POST /rechunk` handler, acting on the loaded document list `docs`
and the index state. `docs` is declared `const` in the source, yet the two
filter lines reassign it; in a module that reassignment throws a
`TypeError`, which the catch block turns into a 500 response, so a request
carrying `specificCategory` or `specificFile` never reaches the 404 check
or the filtering it announces. -/
def rechunkHandler (envLen envOvl : Option Nat) (docs : List Doc)
    (body : RechunkBody) (embed : Str → Option Vec) (h : Str → Str)
    (idx : Index) : RechunkResp × Index :=
  let len := resolveParam body.chunkLength envLen 500
  let ovl := resolveParam body.chunkOverlap envOvl 50
  if body.specificCategory.isSome || body.specificFile.isSome then
    ({ status := 500, error := some (str ("Rechunk failed")),
       details := some (str ("Assignment to constant variable.")) }, idx)
  else if docs.isEmpty then
    ({ status := 404, message := some (str ("No matching documents found")) }, idx)
  else
    let chunks := chunkAllDocuments docs len ovl
    let embedded := embedAllChunks embed chunks
    match saveToChroma h idx embedded with
    | .error e =>
      ({ status := 500, error := some (str ("Rechunk failed")),
         details := some e }, idx)
    | .ok idx2 =>
      ({ status := 200, message := some (str ("Rechunk completed")),
         documents := some docs.length, chunks := some chunks.length,
         chunkLength := some len, chunkOverlap := some ovl }, idx2)

/-! ## Helper lemmas -/

theorem trimStr_length_le (l : Str) : (trimStr l).length ≤ l.length := by
  unfold trimStr
  calc ((l.dropWhile isWsChar).reverse.dropWhile isWsChar).reverse.length
      = ((l.dropWhile isWsChar).reverse.dropWhile isWsChar).length := by
        simp
    _ ≤ (l.dropWhile isWsChar).reverse.length := length_dropWhile_le _ _
    _ = (l.dropWhile isWsChar).length := by simp
    _ ≤ l.length := length_dropWhile_le _ _

theorem trimStr_append_space (l : Str) : trimStr (l ++ [' ']) = trimStr l := by
  unfold trimStr
  rw [List.dropWhile_append]
  by_cases h : (l.dropWhile isWsChar).isEmpty
  · simp only [h, if_pos]
    rw [List.isEmpty_iff] at h
    rw [h]
    simp [List.dropWhile, isWsChar]
  · simp only [h, if_neg, Bool.false_eq_true, not_false_iff, if_neg]
    rw [List.reverse_append]
    simp only [List.reverse_cons, List.reverse_nil, List.nil_append,
      List.singleton_append, List.dropWhile]
    simp [isWsChar]

theorem takeLast_length_le (k : Nat) (l : Str) : (takeLast k l).length ≤ k := by
  unfold takeLast
  rw [List.length_drop]
  omega

theorem mem_le_foldr_max (l : List Nat) (x : Nat) (hx : x ∈ l) :
    x ≤ l.foldr max 0 := by
  induction l with
  | nil => cases hx
  | cons a l ih =>
    rcases List.mem_cons.mp hx with h | h
    · subst h; exact le_max_of_le_left (le_refl x)
    · exact le_max_of_le_right (ih h)

theorem sentLen_le_maxSentLen (t : Str) :
    ∀ s ∈ sentencesOf t, s.length ≤ maxSentLen t := by
  intro s hs
  exact mem_le_foldr_max _ _ (List.mem_map.mpr ⟨s, hs, rfl⟩)

/-- Parse a decimal digit string back to a number (left inverse used to
show the rendering is injective). -/
def ofDigits (l : Str) : Nat :=
  l.foldl (fun a c => a * 10 + (c.toNat - 48)) 0

theorem digitChar_toNat (d : Nat) (hd : d < 10) :
    (Nat.digitChar d).toNat = 48 + d := by
  have key : ∀ x : Fin 10, (Nat.digitChar x.val).toNat = 48 + x.val := by
    decide
  exact key ⟨d, hd⟩

theorem ofDigits_append_digit (xs : Str) (c : Char) :
    ofDigits (xs ++ [c]) = (ofDigits xs) * 10 + (c.toNat - 48) := by
  simp [ofDigits, List.foldl_append]

theorem natReprAux_roundtrip :
    ∀ fuel n, n < fuel → ofDigits (natReprAux fuel n) = n := by
  intro fuel
  induction fuel with
  | zero => intro n h; omega
  | succ fuel ih =>
    intro n h
    unfold natReprAux
    by_cases h10 : n < 10
    · rw [if_pos h10]
      simp [ofDigits, digitChar_toNat n h10]
    · rw [if_neg h10]
      have hdiv : n / 10 < n := Nat.div_lt_self (by omega) (by omega)
      rw [ofDigits_append_digit, ih (n / 10) (by omega)]
      rw [digitChar_toNat (n % 10) (Nat.mod_lt _ (by omega))]
      omega

theorem natRepr_roundtrip (n : Nat) : ofDigits (natRepr n) = n :=
  natReprAux_roundtrip (n + 1) n (by omega)

theorem natRepr_inj (n m : Nat) (h : natRepr n = natRepr m) : n = m := by
  have := congrArg ofDigits h
  rwa [natRepr_roundtrip, natRepr_roundtrip] at this

/-! ## Claim C10 -/

/-- C10: in `POST /rechunk`, a supplied `chunkLength` or `chunkOverlap`
whose `parseInt` result is `0` or `NaN` is silently replaced by the
configured default (the environment value if it parses non-zero, else the
fallback 500 resp. 50); the resolved parameter is never `0`, so a body with
`chunkOverlap: 0` is re-chunked exactly as if the field were absent. -/
theorem c10_zero_overlap_replaced_by_default (envVal : Option Nat)
    (fallback : Nat) (s : Option Nat) (envL envO : Option Nat)
    (docs : List Doc) (embed : Str → Option Vec) (h : Str → Str)
    (idx : Index) (cl : Option Nat) (sf sc : Option Str)
    (hfb : 0 < fallback) :
    ((s = none ∨ s = some 0) →
      resolveParam s envVal fallback = resolveParam none envVal fallback) ∧
    resolveParam s envVal fallback ≠ 0 ∧
    rechunkHandler envL envO docs ⟨cl, some 0, sf, sc⟩ embed h idx =
      rechunkHandler envL envO docs ⟨cl, none, sf, sc⟩ embed h idx := by
  refine ⟨?_, ?_, ?_⟩
  · rintro (rfl | rfl)
    · rfl
    · simp [resolveParam, orFalsy]
  · rcases s with _ | v
    · rcases envVal with _ | e
      · simp [resolveParam, orFalsy]; omega
      · by_cases he : e = 0
        · simp [resolveParam, orFalsy, he]; omega
        · simp [resolveParam, orFalsy, he]
    · by_cases hv : v = 0
      · subst hv
        rcases envVal with _ | e
        · simp [resolveParam, orFalsy]; omega
        · by_cases he : e = 0
          · simp [resolveParam, orFalsy, he]; omega
          · simp [resolveParam, orFalsy, he]
      · simp [resolveParam, orFalsy, hv]
  · rfl

/-- C10 witness at concrete inputs. -/
theorem c10_zero_overlap_replaced_by_default_witness :
    resolveParam (some 0) (some 7) 50 = resolveParam none (some 7) 50 ∧
    resolveParam (some 0) (some 7) 50 ≠ 0 := by
  have h := c10_zero_overlap_replaced_by_default (some 7) 50 (some 0)
    none none [] (fun _ => none) (fun s => s) [] none none none (by decide)
  exact ⟨h.1 (Or.inr rfl), h.2.1⟩

/-! ## Claim C9 -/

/-- The loaded corpus used in the C9 run: one finance document. -/
def docs9 : List Doc :=
  [⟨str ("a.txt"), str ("finance"), str ("Rates rose.")⟩]

/-- C9: `POST /rechunk` with a `specificCategory` filter that matches zero
documents does NOT respond 404 `{message: "No matching documents found"}`:
the filter line reassigns the `const docs` binding, which throws a
`TypeError` that the catch block converts into a 500
`{error: "Rechunk failed"}` response; the 404 branch is unreachable
whenever a filter is supplied. This theorem evaluates the handler at the
failing input. -/
theorem c9_rechunk_filter_throws_500 :
    (rechunkHandler none none docs9
      ⟨none, none, none, some (str ("nope"))⟩
      (fun _ => none) (fun s => s) []).1 =
    { status := 500, error := some (str ("Rechunk failed")),
      details := some (str ("Assignment to constant variable.")) } := by
  rfl

/-! ## Claim C8 -/

/-- C8 counterexample: an empty embedded-chunk input is NOT a fatal error —
`saveToChroma` warns and returns without writing, leaving the index as it
was and signalling success, contrary to the claim that an empty
embedded-chunk result aborts as a fatal error. -/
theorem c8_counterexample_empty_input_is_silent_noop :
    saveToChroma (fun s => s) [] [] = Except.ok [] := by
  rfl

theorem chroma_lengths (h : Str → Str) (ecs : List EmbChunk) :
    (chromaIds h ecs).length = (chromaEmbeddings ecs).length ∧
    (chromaIds h ecs).length = (chromaMetadatas ecs).length ∧
    (chromaIds h ecs).length = (chromaDocuments ecs).length := by
  simp [chromaIds, chromaEmbeddings, chromaMetadatas, chromaDocuments]

/-- C8 amended: when `saveToChroma` runs on a NON-empty embedded-chunk
list, either the four parallel arrays passed to the index have equal
non-zero length and the batch is written in one call, or (every chunk of
the input lacking a usable embedding) the call is a fatal error and
nothing is written; an EMPTY embedded-chunk input, however, returns early
as a silent no-op — success with nothing written — rather than a fatal
error. -/
theorem c8_amended_write_invariant (h : Str → Str) (idx : Index)
    (ecs : List EmbChunk) :
    (ecs = [] → saveToChroma h idx ecs = .ok idx) ∧
    (ecs ≠ [] → chromaRows ecs = [] →
      saveToChroma h idx ecs = .error (str ("Chroma data arrays mismatch or empty"))) ∧
    (ecs ≠ [] → chromaRows ecs ≠ [] →
      (chromaIds h ecs).length = (chromaEmbeddings ecs).length ∧
      (chromaIds h ecs).length = (chromaMetadatas ecs).length ∧
      (chromaIds h ecs).length = (chromaDocuments ecs).length ∧
      0 < (chromaIds h ecs).length ∧
      saveToChroma h idx ecs = .ok (upsertAll idx (chromaBatch h ecs))) := by
  obtain ⟨hl1, hl2, hl3⟩ := chroma_lengths h ecs
  refine ⟨?_, ?_, ?_⟩
  · rintro rfl; rfl
  · intro hne hrows
    have hids : (chromaIds h ecs).isEmpty = true := by
      simp [chromaIds, hrows]
    unfold saveToChroma
    rw [if_neg (by simpa [List.isEmpty_iff] using hne), if_pos (Or.inl hids)]
  · intro hne hrows
    have hpos : 0 < (chromaIds h ecs).length := by
      simp only [chromaIds, List.length_map]
      exact List.length_pos.mpr hrows
    refine ⟨hl1, hl2, hl3, hpos, ?_⟩
    unfold saveToChroma
    rw [if_neg (by simpa [List.isEmpty_iff] using hne), if_neg]
    push_neg
    refine ⟨?_, hl1, hl2, hl3⟩
    have hne' : chromaIds h ecs ≠ [] := by
      intro h0
      rw [h0] at hpos
      simp at hpos
    simpa [List.isEmpty_iff] using hne'

/-- The embedded chunk used by the C8 witness run. -/
def ec8 : List EmbChunk :=
  [⟨str ("a.txt"), str ("finance"), 0, str ("Rates rose."), [1]⟩]

/-- C8 witness at a concrete non-empty input. -/
theorem c8_amended_write_invariant_witness :
    0 < (chromaIds (fun s => s) ec8).length ∧
    saveToChroma (fun s => s) [] ec8 =
      .ok (upsertAll [] (chromaBatch (fun s => s) ec8)) := by
  have h := (c8_amended_write_invariant (fun s => s) [] ec8).2.2
    (by decide) (by decide)
  exact ⟨h.2.2.2.1, h.2.2.2.2⟩

/-! ## Claim C7 -/

/-- C7 counterexample: two distinct (filename, category, chunkIndex)
triples — with a `|` inside a field — produce the identical raw string,
hence the identical identity under every hash function, with certainty
rather than with negligible probability. -/
theorem c7_counterexample_pipe_collision :
    rawId (str ("a|b")) (str ("c")) 0 = rawId (str ("a")) (str ("b|c")) 0 ∧
    makeChunkId (fun s => s) ⟨str ("a|b"), str ("c"), 0, str ("x")⟩ =
      makeChunkId (fun s => s) ⟨str ("a"), str ("b|c"), 0, str ("y")⟩ ∧
    ¬ (str ("a|b") = str ("a") ∧ str ("c") = str ("b|c")) := by
  refine ⟨by decide, by decide, by decide⟩

/-- C7 amended: `makeChunkId` is a pure function of
(filename, category, chunkIndex) — identical triples give identical
identities regardless of chunk content or run — and changing exactly ONE
of the three fields always changes the raw string handed to the hash (so
the identities differ unless the external SHA-1 itself collides on those
two raw strings); distinct triples can, however, collide with certainty
when their fields embed the `|` separator. -/
theorem c7_amended_identity_determinism (h : Str → Str) (ch1 ch2 : Chunk)
    (f f' c c' : Str) (i i' : Nat) :
    (ch1.filename = ch2.filename → ch1.category = ch2.category →
      ch1.chunkIndex = ch2.chunkIndex → makeChunkId h ch1 = makeChunkId h ch2) ∧
    (rawId f c i = rawId f' c i → f = f') ∧
    (rawId f c i = rawId f c' i → c = c') ∧
    (rawId f c i = rawId f c i' → i = i') := by
  refine ⟨?_, ?_, ?_, ?_⟩
  · intro h1 h2 h3
    unfold makeChunkId
    rw [h1, h2, h3]
  · intro heq
    unfold rawId at heq
    exact List.append_cancel_right (List.append_cancel_right heq)
  · intro heq
    unfold rawId at heq
    have h2 := List.append_cancel_left (List.append_cancel_right heq)
    injection h2 with _ h3
  · intro heq
    unfold rawId at heq
    have h2 := List.append_cancel_left heq
    injection h2 with _ h3
    exact natRepr_inj _ _ h3

/-- C7 witness: determinism at concrete inputs differing in content. -/
theorem c7_amended_identity_determinism_witness :
    makeChunkId (fun s => s) ⟨str ("a.txt"), str ("finance"), 3, str ("u")⟩ =
      makeChunkId (fun s => s) ⟨str ("a.txt"), str ("finance"), 3, str ("v")⟩ := by
  exact (c7_amended_identity_determinism (fun s => s)
    ⟨str ("a.txt"), str ("finance"), 3, str ("u")⟩
    ⟨str ("a.txt"), str ("finance"), 3, str ("v")⟩
    [] [] [] [] 0 0).1 rfl rfl rfl

/-! ## Claim C6 -/

/-- The document content used by the C6 counterexample. -/
def t6 : Str := str ("aaaa bbbb. cccc dddd. x.")

/-- C6 counterexample: with chunk length 20 and configured overlap 5, the
single-document upload path (which omits the overlap argument of
`chunkText`, so chunks with overlap 0) and the rechunk path (which passes
the configured overlap) produce different chunk boundaries for the same
document content, refuting the claim that the two modes chunk with the
same overlap. -/
theorem c6_counterexample_upload_rechunk_differ :
    uploadPrepare 20 (str ("a.txt")) (str ("finance")) t6 ≠
      chunkAllDocuments [⟨str ("a.txt"), str ("finance"), t6⟩] 20 5 := by
  decide

/-- C6 amended: the two ingestion modes share the identical
chunk→embed→identify→upsert logic EXCEPT that `/upload` always chunks
with overlap 0 (its `chunkText` call omits the overlap argument) while
`/rechunk` chunks with the configured overlap; as a sufficient condition,
whenever `/rechunk` chunks with overlap 0 the two modes produce identical
chunks and hence identical embeddings, identities and writes for the same
document (overlap 0 is not claimed necessary for agreement). -/
theorem c6_amended_upload_chunks_with_zero_overlap (size : Nat)
    (f c t : Str) (embed : Str → Option Vec) (h : Str → Str) (idx : Index) :
    chunkAllDocuments [⟨f, c, t⟩] size 0 = uploadPrepare size f c t ∧
    saveToChroma h idx (embedAllChunks embed (chunkAllDocuments [⟨f, c, t⟩] size 0)) =
      saveToChroma h idx (embedAllChunks embed (uploadPrepare size f c t)) := by
  have h1 : chunkAllDocuments [⟨f, c, t⟩] size 0 = uploadPrepare size f c t := by
    simp [chunkAllDocuments, uploadPrepare]
  exact ⟨h1, by rw [h1]⟩

/-! ## Claim C3 -/

/-- The per-chunk outcome of embedding: the chunk paired with its vector
when the provider succeeds, nothing when it fails. -/
def embedResult (embed : Str → Option Vec) (c : Chunk) : Option EmbChunk :=
  (embed c.content).map (fun v =>
    EmbChunk.mk c.filename c.category c.chunkIndex c.content v)

theorem processBatch_eq_filterMap (embed : Str → Option Vec)
    (batch : List Chunk) :
    processBatch embed batch = batch.filterMap (embedResult embed) := by
  induction batch with
  | nil => rfl
  | cons c bs ih =>
    unfold processBatch at ih ⊢
    simp only [List.map_cons, List.zip_cons_cons, List.filterMap_cons]
    cases h : embed c.content with
    | none => simp [embedResult, h, ih]
    | some v => simp [embedResult, h, ih]

theorem embedAllAux_eq_filterMap (embed : Str → Option Vec) :
    ∀ fuel chunks, chunks.length ≤ fuel →
      embedAllAux embed fuel chunks = chunks.filterMap (embedResult embed) := by
  intro fuel
  induction fuel with
  | zero =>
    intro chunks h
    have : chunks = [] := List.length_eq_zero.mp (by omega)
    subst this
    rfl
  | succ fuel ih =>
    intro chunks h
    cases chunks with
    | nil => rfl
    | cons c rest =>
      show processBatch embed ((c :: rest).take EMBED_BATCH_SIZE) ++
          embedAllAux embed fuel ((c :: rest).drop EMBED_BATCH_SIZE) = _
      rw [processBatch_eq_filterMap,
        ih ((c :: rest).drop EMBED_BATCH_SIZE)
          (by simp [EMBED_BATCH_SIZE] at h ⊢; omega),
        ← List.filterMap_append, List.take_append_drop]

/-- C3: `embedAllChunks` returns exactly the input chunks whose embedding
succeeded, each paired with its vector, in input order (so a per-chunk
failure removes only that chunk and never aborts the run); in particular
a 16-chunk input with exactly one failing chunk yields exactly 15
embedded chunks. -/
theorem c3_embed_partial_failure (embed : Str → Option Vec)
    (chunks : List Chunk) :
    embedAllChunks embed chunks = chunks.filterMap (embedResult embed) ∧
    (chunks.length = 16 →
      chunks.countP (fun c => embed c.content = none) = 1 →
      (embedAllChunks embed chunks).length = 15) := by
  have hmain : embedAllChunks embed chunks = chunks.filterMap (embedResult embed) :=
    embedAllAux_eq_filterMap embed chunks.length chunks (le_refl _)
  refine ⟨hmain, ?_⟩
  intro h16 hone
  rw [hmain, List.length_filterMap_eq_countP]
  have hsum := List.length_eq_countP_add_countP
    (p := fun c => (embedResult embed c).isSome) (l := chunks)
  have hcong : chunks.countP (fun a => decide (¬ (embedResult embed a).isSome = true)) =
      chunks.countP (fun c => embed c.content = none) := by
    apply List.countP_congr
    intro c _
    cases h : embed c.content with
    | none => simp [embedResult, h]
    | some v => simp [embedResult, h]
  rw [hcong, hone] at hsum
  omega

/-- The 16-chunk input of the C3 witness: chunk 7 has empty content and
the witness oracle fails exactly on empty content. -/
def chunks3 : List Chunk :=
  (List.range 16).map (fun i =>
    Chunk.mk (str ("f")) (str ("c")) i (if i = 7 then [] else str ("x")))

/-- C3 witness: on a concrete 16-chunk batch with exactly one failing
chunk, exactly 15 embedded chunks come back. -/
theorem c3_embed_partial_failure_witness :
    (embedAllChunks (fun s => if s.isEmpty then none else some [1]) chunks3).length = 15 := by
  exact (c3_embed_partial_failure (fun s => if s.isEmpty then none else some [1])
    chunks3).2 (by decide) (by decide)

/-! ## Claim C4 -/

/-- C4: whenever the vector-index query returns zero documents, the
context handed to the answer generator is exactly the literal sentinel
`No relevant documents found.` (never the empty string), and the
generator is still called — exactly once, with the prompt built from the
question and that sentinel. -/
theorem c4_empty_retrieval_sentinel (E : Str → Option Vec)
    (Q : Vec → Except Str (List Str × List QMeta))
    (G : Str → Except Str (Option Str)) (q : Str) (v : Vec)
    (metas : List QMeta)
    (h1 : (trimStr q).isEmpty = false) (h2 : E q = some v)
    (h3 : v.isEmpty = false) (h4 : Q v = .ok ([], metas)) :
    contextFinal [] metas = sentinelCtx ∧
    sentinelCtx ≠ [] ∧
    (promptHandler E Q G q).genCalls = [ragPrompt q sentinelCtx] := by
  have hctx : contextFinal [] metas = sentinelCtx := by
    simp [contextFinal, contextBlocks, trimStr]
  refine ⟨hctx, by simp [sentinelCtx, str], ?_⟩
  unfold promptHandler
  simp only [h1, h2, h3, h4, Bool.false_eq_true, if_false, hctx]
  cases G (ragPrompt q sentinelCtx) with
  | error e => rfl
  | ok r => rfl

/-- C4 witness at concrete oracles and question. -/
theorem c4_empty_retrieval_sentinel_witness :
    (promptHandler (fun _ => some [1])
      (fun _ => Except.ok ([], []))
      (fun _ => Except.ok none) (str ("hi"))).genCalls =
    [ragPrompt (str ("hi")) sentinelCtx] := by
  exact (c4_empty_retrieval_sentinel (fun _ => some [1])
    (fun _ => Except.ok ([], []))
    (fun _ => Except.ok none) (str ("hi")) [1] []
    (by decide) rfl (by decide) rfl).2.2

/-! ## Claim C5 -/

/-- C5 counterexample: with retrieval fully succeeding (the question
embeds, the index query returns), a generative call that THROWS is not
recovered into the fallback sentence — the catch block surfaces it as a
raw 500 `Prompt failed` response, contrary to the claim that `/prompt`
returns 500 only when retrieval itself failed first. -/
theorem c5_counterexample_thrown_generation_is_500 :
    (promptHandler (fun _ => some [1])
      (fun _ => Except.ok ([], []))
      (fun _ => Except.error (str ("boom"))) (str ("hi"))).status = 500 ∧
    (promptHandler (fun _ => some [1])
      (fun _ => Except.ok ([], []))
      (fun _ => Except.error (str ("boom"))) (str ("hi"))).details =
      some (str ("boom")) := by
  refine ⟨rfl, rfl⟩

/-- C5 amended: when retrieval succeeded and the generative call RETURNS
(does not throw) but yields no text — or empty text — the handler
substitutes the exact fallback sentence and responds 200; but a
generative call that THROWS becomes a 500 `Prompt failed` response even
though retrieval succeeded (500 also arises from a failed question
embedding or a thrown index query). -/
theorem c5_amended_generation_fallback (E : Str → Option Vec)
    (Q : Vec → Except Str (List Str × List QMeta))
    (G : Str → Except Str (Option Str)) (q : Str) (v : Vec)
    (docs : List Str) (metas : List QMeta)
    (h1 : (trimStr q).isEmpty = false) (h2 : E q = some v)
    (h3 : v.isEmpty = false) (h4 : Q v = .ok (docs, metas)) :
    (G (ragPrompt q (contextFinal docs metas)) = .ok none →
      promptHandler E Q G q =
        { status := 200, answer := some fallbackAnswer, sources := metas,
          genCalls := [ragPrompt q (contextFinal docs metas)] }) ∧
    (∀ t, G (ragPrompt q (contextFinal docs metas)) = .ok (some t) →
      t.isEmpty = true →
      promptHandler E Q G q =
        { status := 200, answer := some fallbackAnswer, sources := metas,
          genCalls := [ragPrompt q (contextFinal docs metas)] }) ∧
    (∀ e, G (ragPrompt q (contextFinal docs metas)) = .error e →
      promptHandler E Q G q =
        { status := 500, error := some (str ("Prompt failed")),
          details := some e,
          genCalls := [ragPrompt q (contextFinal docs metas)] }) := by
  have hun : promptHandler E Q G q =
      match G (ragPrompt q (contextFinal docs metas)) with
      | .error e =>
        { status := 500, error := some (str ("Prompt failed")),
          details := some e, genCalls := [ragPrompt q (contextFinal docs metas)] }
      | .ok r =>
        { status := 200, answer := some (answerOf r), sources := metas,
          genCalls := [ragPrompt q (contextFinal docs metas)] } := by
    unfold promptHandler
    simp only [h1, h2, h3, h4, Bool.false_eq_true, if_false]
  refine ⟨?_, ?_, ?_⟩
  · intro hg
    rw [hun, hg]
    rfl
  · intro t hg ht
    rw [hun, hg]
    simp [answerOf, ht]
  · intro e hg
    rw [hun, hg]

/-- C5 witness: a concrete generative call returning no text yields the
fallback answer with status 200. -/
theorem c5_amended_generation_fallback_witness :
    promptHandler (fun _ => some [1]) (fun _ => Except.ok ([], []))
      (fun _ => Except.ok none) (str ("hi")) =
    { status := 200, answer := some fallbackAnswer, sources := [],
      genCalls := [ragPrompt (str ("hi")) (contextFinal [] [])] } := by
  exact (c5_amended_generation_fallback (fun _ => some [1])
    (fun _ => Except.ok ([], [])) (fun _ => Except.ok none)
    (str ("hi")) [1] [] [] (by decide) rfl (by decide) rfl).1 rfl

/-! ## Claim C1 -/

theorem any_key_iff (idx : Index) (id : Str) :
    (idx.any (fun p => p.1 = id)) = true ↔ id ∈ keys idx := by
  induction idx with
  | nil => simp [keys]
  | cons q rest ih =>
    simp only [List.any_cons, keys, List.map_cons, List.mem_cons,
      Bool.or_eq_true, decide_eq_true_eq] at ih ⊢
    constructor
    · rintro (h | h)
      · exact Or.inl h.symm
      · exact Or.inr (ih.mp h)
    · rintro (h | h)
      · exact Or.inl h.symm
      · exact Or.inr (ih.mpr h)

theorem keys_upsert_of_mem (idx : Index) (id : Str) (r : StoredRec)
    (h : id ∈ keys idx) : keys (upsert idx id r) = keys idx := by
  unfold upsert
  rw [if_pos ((any_key_iff idx id).mpr h)]
  unfold keys
  rw [List.map_map]
  apply List.map_congr_left
  intro p _
  by_cases hp : p.1 = id
  · simp [hp]
  · simp [hp]

theorem length_upsert_of_mem (idx : Index) (id : Str) (r : StoredRec)
    (h : id ∈ keys idx) : (upsert idx id r).length = idx.length := by
  unfold upsert
  rw [if_pos ((any_key_iff idx id).mpr h)]
  exact List.length_map _ _

theorem mem_keys_upsert (idx : Index) (id : Str) (r : StoredRec) (k : Str) :
    k ∈ keys (upsert idx id r) ↔ k ∈ keys idx ∨ k = id := by
  unfold upsert
  by_cases h : (idx.any (fun p => p.1 = id)) = true
  · rw [if_pos h]
    have hmem := (any_key_iff idx id).mp h
    have : keys (idx.map (fun p => if p.1 = id then (id, r) else p)) = keys idx := by
      have := keys_upsert_of_mem idx id r hmem
      unfold upsert at this
      rwa [if_pos ((any_key_iff idx id).mpr hmem)] at this
    rw [this]
    constructor
    · exact Or.inl
    · rintro (hk | rfl)
      · exact hk
      · exact hmem
  · rw [if_neg h]
    simp [keys, List.mem_append]

theorem mem_keys_upsertAll (rows : List (Str × StoredRec)) :
    ∀ (idx : Index) (k : Str),
      k ∈ keys (upsertAll idx rows) ↔ k ∈ keys idx ∨ k ∈ rows.map Prod.fst := by
  induction rows with
  | nil => intro idx k; simp [upsertAll]
  | cons p rest ih =>
    intro idx k
    show k ∈ keys (upsertAll (upsert idx p.1 p.2) rest) ↔ _
    rw [ih (upsert idx p.1 p.2) k, mem_keys_upsert]
    simp [List.mem_cons]
    tauto

theorem upsertAll_preserves_of_mem (rows : List (Str × StoredRec)) :
    ∀ (idx : Index), (∀ p ∈ rows, p.1 ∈ keys idx) →
      keys (upsertAll idx rows) = keys idx ∧
      (upsertAll idx rows).length = idx.length := by
  induction rows with
  | nil => intro idx _; exact ⟨rfl, rfl⟩
  | cons p rest ih =>
    intro idx hall
    have hp : p.1 ∈ keys idx := hall p (List.mem_cons_self _ _)
    have hk := keys_upsert_of_mem idx p.1 p.2 hp
    have hl := length_upsert_of_mem idx p.1 p.2 hp
    have hrest : ∀ q ∈ rest, q.1 ∈ keys (upsert idx p.1 p.2) := by
      intro q hq
      rw [hk]
      exact hall q (List.mem_cons_of_mem _ hq)
    obtain ⟨h1, h2⟩ := ih (upsert idx p.1 p.2) hrest
    exact ⟨by rw [show upsertAll idx (p :: rest) =
        upsertAll (upsert idx p.1 p.2) rest from rfl, h1, hk],
      by rw [show upsertAll idx (p :: rest) =
        upsertAll (upsert idx p.1 p.2) rest from rfl, h2, hl]⟩

theorem find?_replace (idx : Index) (id : Str) (r : StoredRec) (k : Str) :
    (idx.map (fun p => if p.1 = id then (id, r) else p)).find? (fun p => p.1 = k) =
    if k = id then (idx.find? (fun p => p.1 = id)).map (fun _ => (id, r))
    else idx.find? (fun p => p.1 = k) := by
  induction idx with
  | nil =>
    by_cases hk : k = id
    · simp [hk]
    · simp [hk]
  | cons q rest ih =>
    simp only [List.map_cons]
    by_cases hq : q.1 = id
    · rw [if_pos hq]
      by_cases hk : k = id
      · subst hk
        rw [List.find?_cons_of_pos _ (by simp), if_pos rfl,
          List.find?_cons_of_pos _ (by simp [hq])]
        rfl
      · rw [List.find?_cons_of_neg _ (by simp; exact fun h => hk h.symm), ih,
          if_neg hk, if_neg hk,
          List.find?_cons_of_neg _
            (by simp; exact fun h => hk (hq.symm.trans h).symm)]
    · rw [if_neg hq]
      by_cases hqk : q.1 = k
      · have hk : ¬ k = id := fun h => hq (hqk.trans h)
        rw [List.find?_cons_of_pos _ (by simp [hqk]), if_neg hk,
          List.find?_cons_of_pos _ (by simp [hqk])]
      · by_cases hk : k = id
        · rw [List.find?_cons_of_neg _ (by simp [hqk]), ih, if_pos hk, if_pos hk,
            List.find?_cons_of_neg _ (by simp [hq])]
        · rw [List.find?_cons_of_neg _ (by simp [hqk]), ih, if_neg hk, if_neg hk,
            List.find?_cons_of_neg _ (by simp [hqk])]

theorem lookup_upsert (idx : Index) (id : Str) (r : StoredRec) (k : Str) :
    lookupIdx (upsert idx id r) k =
      if k = id then some r else lookupIdx idx k := by
  unfold upsert lookupIdx
  by_cases h : (idx.any (fun p => p.1 = id)) = true
  · rw [if_pos h, find?_replace]
    by_cases hk : k = id
    · rw [if_pos hk, if_pos hk]
      rw [List.any_eq_true] at h
      obtain ⟨p, hp, hpd⟩ := h
      have hs : (idx.find? (fun p => p.1 = id)).isSome := by
        rw [List.find?_isSome]
        exact ⟨p, hp, hpd⟩
      obtain ⟨q, hq⟩ := Option.isSome_iff_exists.mp hs
      rw [hq]
      rfl
    · rw [if_neg hk, if_neg hk]
  · rw [if_neg h, List.find?_append]
    by_cases hk : k = id
    · rw [if_pos hk]
      have : idx.find? (fun p => p.1 = k) = none := by
        rw [List.find?_eq_none]
        intro p hp hpk
        apply h
        rw [List.any_eq_true]
        exact ⟨p, hp, by simp at hpk ⊢; rw [hpk, hk]⟩
      rw [this]
      simp [hk]
    · rw [if_neg hk]
      have : ([(id, r)].find? (fun p => p.1 = k)) = none := by
        rw [List.find?_eq_none]
        intro p hp hpk
        simp at hp
        subst hp
        simp at hpk
        exact hk hpk.symm
      rw [this]
      simp

/-- The record the LAST row carrying key `k` writes, if any. -/
def lastWrite (rows : List (Str × StoredRec)) (k : Str) : Option StoredRec :=
  rows.foldl (fun acc q => if q.1 = k then some q.2 else acc) none

theorem lastWrite_foldl_general (k : Str) (rows : List (Str × StoredRec)) :
    ∀ acc : Option StoredRec,
      rows.foldl (fun a q => if q.1 = k then some q.2 else a) acc =
      match lastWrite rows k with
      | some r => some r
      | none => acc := by
  induction rows with
  | nil => intro acc; rfl
  | cons q rest ih =>
    intro acc
    show rest.foldl _ (if q.1 = k then some q.2 else acc) = _
    rw [ih]
    have hr : lastWrite (q :: rest) k =
        match lastWrite rest k with
        | some r => some r
        | none => if q.1 = k then some q.2 else none := by
      show rest.foldl _ (if q.1 = k then some q.2 else none) = _
      rw [ih]
    rw [hr]
    cases lastWrite rest k with
    | none => by_cases hq : q.1 = k <;> simp [hq]
    | some r => rfl

theorem lookup_upsertAll (rows : List (Str × StoredRec)) :
    ∀ (idx : Index) (k : Str),
      lookupIdx (upsertAll idx rows) k =
      match lastWrite rows k with
      | some r => some r
      | none => lookupIdx idx k := by
  induction rows with
  | nil => intro idx k; rfl
  | cons q rest ih =>
    intro idx k
    show lookupIdx (upsertAll (upsert idx q.1 q.2) rest) k = _
    rw [ih, lookup_upsert]
    have hr : lastWrite (q :: rest) k =
        match lastWrite rest k with
        | some r => some r
        | none => if q.1 = k then some q.2 else none := by
      show rest.foldl _ (if q.1 = k then some q.2 else none) = _
      rw [lastWrite_foldl_general]
    rw [hr]
    cases lastWrite rest k with
    | none =>
      by_cases hq : q.1 = k
      · rw [if_pos hq.symm, if_pos hq]
      · rw [if_neg (fun hh => hq hh.symm), if_neg hq]
    | some r => rfl

/-- C1: re-running the ingestion write (`saveToChroma`) with the identical
embedded chunks on the index state it produced succeeds again and leaves
the index observably unchanged: same record count, same identity set, and
the same stored record at every identity — each chunk identity overwrites
the record it wrote on the first run instead of duplicating it. -/
theorem c1_reingest_idempotent (h : Str → Str) (idx idx1 : Index)
    (ecs : List EmbChunk) (hrun : saveToChroma h idx ecs = .ok idx1) :
    ∃ idx2, saveToChroma h idx1 ecs = .ok idx2 ∧
      idx2.length = idx1.length ∧ keys idx2 = keys idx1 ∧
      ∀ k, lookupIdx idx2 k = lookupIdx idx1 k := by
  unfold saveToChroma at hrun ⊢
  by_cases he : ecs.isEmpty
  · rw [if_pos he] at hrun ⊢
    obtain rfl : idx = idx1 := Except.ok.inj hrun
    exact ⟨idx, rfl, rfl, rfl, fun k => rfl⟩
  · rw [if_neg he] at hrun ⊢
    by_cases hcond : (chromaIds h ecs).isEmpty = true ∨
        (chromaIds h ecs).length ≠ (chromaEmbeddings ecs).length ∨
        (chromaIds h ecs).length ≠ (chromaMetadatas ecs).length ∨
        (chromaIds h ecs).length ≠ (chromaDocuments ecs).length
    · rw [if_pos hcond] at hrun
      cases hrun
    · rw [if_neg hcond] at hrun ⊢
      obtain rfl : upsertAll idx (chromaBatch h ecs) = idx1 := Except.ok.inj hrun
      refine ⟨upsertAll (upsertAll idx (chromaBatch h ecs)) (chromaBatch h ecs),
        rfl, ?_, ?_, ?_⟩
      · have hall : ∀ p ∈ chromaBatch h ecs,
            p.1 ∈ keys (upsertAll idx (chromaBatch h ecs)) := by
          intro p hp
          rw [mem_keys_upsertAll]
          exact Or.inr (List.mem_map.mpr ⟨p, hp, rfl⟩)
        exact (upsertAll_preserves_of_mem _ _ hall).2
      · have hall : ∀ p ∈ chromaBatch h ecs,
            p.1 ∈ keys (upsertAll idx (chromaBatch h ecs)) := by
          intro p hp
          rw [mem_keys_upsertAll]
          exact Or.inr (List.mem_map.mpr ⟨p, hp, rfl⟩)
        exact (upsertAll_preserves_of_mem _ _ hall).1
      · intro k
        rw [lookup_upsertAll]
        cases hw : lastWrite (chromaBatch h ecs) k with
        | none => rfl
        | some r =>
          rw [lookup_upsertAll, hw]

/-- C1 witness: a concrete second run returns the first run state with
identical count, keys and records. -/
theorem c1_reingest_idempotent_witness :
    ∃ idx2, saveToChroma (fun s => s)
        (upsertAll [] (chromaBatch (fun s => s) ec8)) ec8 = .ok idx2 ∧
      idx2.length = (upsertAll [] (chromaBatch (fun s => s) ec8)).length ∧
      keys idx2 = keys (upsertAll [] (chromaBatch (fun s => s) ec8)) ∧
      ∀ k, lookupIdx idx2 k =
        lookupIdx (upsertAll [] (chromaBatch (fun s => s) ec8)) k := by
  exact c1_reingest_idempotent (fun s => s) []
    (upsertAll [] (chromaBatch (fun s => s) ec8)) ec8 rfl

/-! ## Claim C2 -/

/-- The text of the C2 counterexample. -/
def t2 : Str := str ("aaaa bbbb. cccc dddd. x.")

/-- C2 counterexample: with maxSize 10 and overlap 5 (a non-negative
overlap below maxSize), `chunkText` emits a chunk longer than 10 that is
NOT a single sentence of the text — it is an overlap seed glued to a
sentence — refuting the claim that the sole chunks exceeding maxSize are
single oversized sentences copied verbatim. -/
theorem c2_counterexample_overlap_chunk_exceeds_size :
    ∃ ch ∈ chunkText t2 10 5, 10 < ch.length ∧ ch ∉ sentencesOf t2 := by
  decide

/-- An overlap seed is at most `O` characters long. -/
theorem seed_length_le (O : Nat) (cur : Str) (cond : Prop) [Decidable cond] :
    (if cond then trimStr (takeLast O cur) else []).length ≤ O := by
  split
  · exact le_trans (trimStr_length_le _) (takeLast_length_le O cur)
  · simp

/-- A buffer reseeded with at most `O` characters and one sentence stays
within the amended bound once trimmed. -/
theorem seeded_buffer_bound (S O M : Nat) (s z : Str) (hs : s.length ≤ M)
    (hz : z.length ≤ O) :
    (trimStr (z ++ s ++ [' '])).length ≤ max S (O + M + 1) := by
  rw [trimStr_append_space]
  calc (trimStr (z ++ s)).length ≤ (z ++ s).length := trimStr_length_le _
    _ ≤ O + M := by rw [List.length_append]; omega
    _ ≤ max S (O + M + 1) := le_trans (by omega) (le_max_right _ _)

/-- One `chunkStep` keeps every pushed chunk and the trimmed buffer within
`max S (O + M + 1)` characters, `M` bounding every sentence length. -/
theorem chunkStep_preserves (S O M : Nat) (st : List Str × Str) (s : Str)
    (hs : s.length ≤ M)
    (h1 : ∀ ch ∈ st.1, ch.length ≤ max S (O + M + 1))
    (h2 : (trimStr st.2).length ≤ max S (O + M + 1)) :
    (∀ ch ∈ (chunkStep S O st s).1, ch.length ≤ max S (O + M + 1)) ∧
    (trimStr (chunkStep S O st s).2).length ≤ max S (O + M + 1) := by
  simp only [chunkStep]
  by_cases hgt : (st.2 ++ s).length > S
  · rw [if_pos hgt]
    constructor
    · intro ch hch
      simp only at hch
      by_cases htr : trimStr st.2 ≠ []
      · rw [if_pos htr] at hch
        rcases List.mem_append.mp hch with hmem | hmem
        · exact h1 ch hmem
        · rw [List.mem_singleton] at hmem
          subst hmem
          exact h2
      · rw [if_neg htr] at hch
        exact h1 ch hch
    · simp only
      exact seeded_buffer_bound S O M s _ hs (seed_length_le O st.2 _)
  · rw [if_neg hgt]
    refine ⟨h1, ?_⟩
    simp only
    rw [trimStr_append_space]
    calc (trimStr (st.2 ++ s)).length ≤ (st.2 ++ s).length := trimStr_length_le _
      _ ≤ S := by omega
      _ ≤ max S (O + M + 1) := le_max_left _ _

/-- The accumulation loop of `chunkText` keeps all chunks and the buffer
within the `max S (O + M + 1)` bound. -/
theorem chunkLoop_bound (S O M : Nat) :
    ∀ (sents : List Str), (∀ s ∈ sents, s.length ≤ M) →
    ∀ st : List Str × Str,
      (∀ ch ∈ st.1, ch.length ≤ max S (O + M + 1)) →
      (trimStr st.2).length ≤ max S (O + M + 1) →
      (∀ ch ∈ (sents.foldl (chunkStep S O) st).1, ch.length ≤ max S (O + M + 1)) ∧
      (trimStr (sents.foldl (chunkStep S O) st).2).length ≤ max S (O + M + 1) := by
  intro sents
  induction sents with
  | nil => intro _ st h1 h2; exact ⟨h1, h2⟩
  | cons s rest ih =>
    intro hM st h1 h2
    have hs : s.length ≤ M := hM s (List.mem_cons_self _ _)
    obtain ⟨g1, g2⟩ := chunkStep_preserves S O M st s hs h1 h2
    exact ih (fun x hx => hM x (List.mem_cons_of_mem _ hx)) (chunkStep S O st s) g1 g2

/-- C2 amended: with overlap, a chunk may be an overlap seed (at most `O`
characters of the previous buffer) glued to a sentence, so the guarantee
is: every chunk of `chunkText T S O` has length at most
`max S (O + L + 1)` where `L` is the length of the longest sentence of
the normalized text — chunks can exceed `S` (by at most `O + 1` beyond a
sentence) even when no sentence does; only with overlap 0 (or when the
text has an oversized sentence) is `S` itself exceeded solely through
oversized material. -/
theorem c2_amended_chunk_length_bound (t : Str) (S O : Nat) :
    ∀ ch ∈ chunkText t S O, ch.length ≤ max S (O + maxSentLen t + 1) := by
  intro ch hch
  obtain ⟨h1, h2⟩ := chunkLoop_bound S O (maxSentLen t) (sentencesOf t)
    (sentLen_le_maxSentLen t) ([], []) (by simp) (by simp [trimStr])
  simp only [chunkText] at hch
  by_cases hfin : trimStr ((sentencesOf t).foldl (chunkStep S O) ([], [])).2 ≠ []
  · rw [if_pos hfin] at hch
    rcases List.mem_append.mp hch with hmem | hmem
    · exact h1 ch hmem
    · rw [List.mem_singleton] at hmem
      subst hmem
      exact h2
  · rw [if_neg hfin] at hch
    exact h1 ch hch

/-- C2 witness: the oversized overlap-seeded chunk of the counterexample
run respects the amended bound. -/
theorem c2_amended_chunk_length_bound_witness :
    (str ("bbb.cccc dddd.")).length ≤ max 10 (5 + maxSentLen t2 + 1) := by
  exact c2_amended_chunk_length_bound t2 10 5 (str ("bbb.cccc dddd.")) (by decide)

end Rag
